import Mathlib

/-!
Verification of the natively meeting-assistant repository: a shallow
embedding of the renderer chat logic (MeetingChatOverlay), the search pill
(TopSearchPill), the SQLite data layer (DatabaseManager), and the
spec-described RAG core (Chunker, EmbeddingQueue, summary upsert).
-/

set_option maxRecDepth 4000

/-! ## Generic list and string helpers -/

/-- JavaScript-style join of a list of strings with a separator
(the semantics of JS Array.prototype.join). -/
def joinSep (sep : String) : List String → String
  | [] => ""
  | [s] => s
  | s :: ss => s ++ sep ++ joinSep sep (ss)

/-- Boolean test that the second list starts with the first. -/
def startsWithL : List Char → List Char → Bool
  | [], _ => true
  | _ :: _, [] => false
  | a :: as, b :: bs => a == b && startsWithL as bs

/-- Boolean substring test on character lists (the semantics of JS
String.prototype.includes). -/
def occursInL : List Char → List Char → Bool
  | n, [] => startsWithL n []
  | n, h :: hs => startsWithL n (h :: hs) || occursInL n hs

/-- Last `n` elements of a list (the semantics of JS slice(-n)). -/
def lastN (n : Nat) (l : List α) : List α := l.drop (l.length - n)

/-- Concatenation of a list of strings. -/
def concatL (l : List String) : String := l.foldl (· ++ ·) ""

/-- JS String.prototype.trim: strip leading and trailing whitespace. -/
def trimL (s : String) : String :=
  ⟨(((s.data.dropWhile Char.isWhitespace).reverse.dropWhile Char.isWhitespace).reverse)⟩

theorem startsWithL_nil_iff (n : List Char) : startsWithL n [] = true ↔ n = [] := by
  cases n <;> simp [startsWithL]

theorem startsWithL_self_append (n t : List Char) : startsWithL n (n ++ t) = true := by
  induction n with
  | nil => simp [startsWithL]
  | cons a as ih => simp [startsWithL, ih]

theorem startsWithL_append_left (n h t : List Char) (hs : startsWithL n h = true) :
    startsWithL n (h ++ t) = true := by
  induction n generalizing h with
  | nil => simp [startsWithL]
  | cons a as ih =>
    cases h with
    | nil => simp [startsWithL] at hs
    | cons b bs =>
      simp only [startsWithL, Bool.and_eq_true, beq_iff_eq] at hs ⊢
      exact ⟨hs.1, ih bs hs.2⟩

theorem occursInL_of_startsWithL (n h : List Char) (hs : startsWithL n h = true) :
    occursInL n h = true := by
  cases h with
  | nil => simpa [occursInL] using hs
  | cons b bs => simp [occursInL, hs]

theorem occursInL_append_right (n h t : List Char) (ht : occursInL n t = true) :
    occursInL n (h ++ t) = true := by
  induction h with
  | nil => simpa using ht
  | cons b bs ih => simp [occursInL, ih]

theorem occursInL_append_left (n h t : List Char) (hh : occursInL n h = true) :
    occursInL n (h ++ t) = true := by
  induction h with
  | nil =>
    simp only [occursInL] at hh
    rw [startsWithL_nil_iff] at hh
    subst hh
    cases t with
    | nil => simp [occursInL, startsWithL]
    | cons c cs => simp [occursInL, startsWithL]
  | cons b bs ih =>
    simp only [occursInL, Bool.or_eq_true] at hh ⊢
    cases hh with
    | inl hs => exact Or.inl (startsWithL_append_left _ _ _ hs)
    | inr ho => exact Or.inr (by simpa using ih ho)

theorem string_data_append (s t : String) : (s ++ t).data = s.data ++ t.data := rfl

example : ("[" ++ "Me" ++ "]: " : String) = "[Me]: " := rfl

example : ("MEETING: " : String).data = ['M', 'E', 'E', 'T', 'I', 'N', 'G', ':', ' '] := rfl

/-! ## MeetingChatOverlay (src/unnamed/part_000)

Shallow embedding of the render-process chat logic.  JS truthiness on
optional strings and arrays is made explicit: an absent field is `none`,
and an empty string or empty array is falsy. -/

/-- One transcript utterance as the renderer sees it. -/
structure TEntry where
  speaker : String
  text : String
  timestamp : Nat
  deriving Repr, DecidableEq

/-- The meeting context handed to MeetingChatOverlay. -/
structure MeetingContext where
  id : Option String
  title : String
  summary : Option String
  keyPoints : Option (List String)
  actionItems : Option (List String)
  transcript : Option (List TEntry)
  deriving Repr, DecidableEq

/-- Speaker-labelled transcript line: `[Me]: text` for speaker `user`,
`[Them]: text` otherwise (part_000 line 209). -/
def labelLine (t : TEntry) : String :=
  "[" ++ (if t.speaker == "user" then "Me" else "Them") ++ "]: " ++ t.text

/-- Bulleted list rendering used for key points and action items. -/
def bulleted (l : List String) : String :=
  joinSep "\n" (l.map (fun p => "- " ++ p))

/-- Parts contributed by the summary push (JS truthiness: absent or empty
string pushes nothing). -/
def summaryBlock (o : Option String) : List String :=
  match o with
  | some s => if s == "" then [] else ["\nSUMMARY:\n" ++ s]
  | none => []

/-- Parts contributed by the keyPoints push (`keyPoints?.length` guard). -/
def keyPointsBlock (o : Option (List String)) : List String :=
  match o with
  | some l => if l.isEmpty then [] else ["\nKEY POINTS:\n" ++ bulleted l]
  | none => []

/-- Parts contributed by the actionItems push. -/
def actionItemsBlock (o : Option (List String)) : List String :=
  match o with
  | some l => if l.isEmpty then [] else ["\nACTION ITEMS:\n" ++ bulleted l]
  | none => []

/-- Parts contributed by the transcript push: last 20 utterances, labelled. -/
def transcriptBlock (o : Option (List TEntry)) : List String :=
  match o with
  | some l =>
    if l.isEmpty then []
    else ["\nRECENT TRANSCRIPT:\n" ++ joinSep "\n" ((lastN 20 l).map labelLine)]
  | none => []

/-- The `parts` array accumulated by buildContextString (part_000 lines
189-214), before the final join. -/
def contextParts (ctx : MeetingContext) : List String :=
  ["MEETING: " ++ ctx.title]
  ++ summaryBlock ctx.summary
  ++ keyPointsBlock ctx.keyPoints
  ++ actionItemsBlock ctx.actionItems
  ++ transcriptBlock ctx.transcript

/-- buildContextString from part_000: the parts joined with a newline. -/
def buildContextString (ctx : MeetingContext) : String :=
  joinSep "\n" (contextParts ctx)

/-- The system prompt built around the context string in both fallback
branches of submitQuestion (part_000 lines 293-295 and 327-329). -/
def systemPromptFor (ctx : MeetingContext) : String :=
  "You are recalling a specific meeting. Answer questions ONLY about this meeting. Be concise (2-4 sentences). Sound natural, like a human recalling. If information is not present, say so briefly. Never guess.\n\n"
  ++ buildContextString ctx

/-- Possible outcomes of the ragQueryMeeting IPC call plus the RAG stream
events the renderer listens for (part_000 lines 245-281). -/
inductive RagOut where
  | fallbackFlag
  | streamed (chunks : List String)
  | streamErr (msg : String)
  | threw
  deriving Repr, DecidableEq

/-- Possible outcomes of the streamGeminiChat call observed through the
Gemini stream listeners (part_000 lines 297-322). -/
inductive GeminiOut where
  | streamed (tokens : List String)
  | threw
  deriving Repr, DecidableEq

/-- External behaviour a single submitQuestion call can observe. -/
structure QueryEnv where
  rag : RagOut
  gemini : GeminiOut
  deriving Repr, DecidableEq

/-- Modelled from the spec: the main-process ragQueryMeeting handler is not
in src/.  Per §4.6 FallbackPolicy, it reports `fallback = true` whenever the
VectorStore has zero completed chunk embeddings for the meeting; otherwise
its outcome is whatever the RAG pipeline does (the environment).
`embCount` is the number of embedded chunks stored for the queried meeting. -/
def ragQueryMeeting (embCount : Nat) (env : QueryEnv) : RagOut :=
  if embCount = 0 then .fallbackFlag else env.rag

/-- Net effect of one submitQuestion call on the chat UI. -/
structure QueryOutcome where
  /-- Prompt passed to streamGeminiChat, `none` if it was never called. -/
  geminiPrompt : Option String
  /-- The surfaced error banner text, if any. -/
  errorMessage : Option String
  /-- The final assistant message content (`none` if removed or never filled). -/
  answer : Option String
  deriving Repr, DecidableEq

/-- Shared tail of both context-window branches: register Gemini listeners
and await streamGeminiChat; a rejection lands in the outer catch block
(part_000 lines 360-365). -/
def geminiRun (env : QueryEnv) (prompt : String) : QueryOutcome :=
  match env.gemini with
  | .streamed toks => { geminiPrompt := some prompt, errorMessage := none, answer := some (concatL toks) }
  | .threw => { geminiPrompt := some prompt, errorMessage := some "Something went wrong. Please try again.", answer := none }

/-- submitQuestion (part_000 lines 218-366) as a function of the meeting
context, the question, the embedded-chunk count of the queried meeting and
the environment.  A blank question returns without doing anything
(line 219). -/
def submitQuestion (embCount : Nat) (ctx : MeetingContext) (q : String) (env : QueryEnv) : QueryOutcome :=
  if trimL q == "" then { geminiPrompt := none, errorMessage := none, answer := none }
  else
    match ctx.id with
    | none => geminiRun env (systemPromptFor ctx)
    | some _ =>
      match ragQueryMeeting embCount env with
      | .fallbackFlag => geminiRun env (systemPromptFor ctx)
      | .streamed chunks => { geminiPrompt := none, errorMessage := none, answer := some (concatL chunks) }
      | .streamErr _ => { geminiPrompt := none, errorMessage := some "Couldn't get a response. Please try again.", answer := none }
      | .threw => { geminiPrompt := none, errorMessage := some "Something went wrong. Please try again.", answer := none }

/-! ## TopSearchPill (src/src/components/MeetingDetails.tsx lines 494-538) -/

/-- The Meeting shape the search pill receives. -/
structure MeetingL where
  id : String
  title : String
  date : String
  summary : Option String
  deriving Repr, DecidableEq

/-- A search result row.  The locale-formatted date subtitle is not
modelled (pure presentation). -/
structure SearchResultL where
  id : String
  type : String
  title : String
  meetingId : String
  deriving Repr, DecidableEq

/-- Per-character lowercasing (JS toLowerCase restricted to the simple
case map). -/
def toLowerL (s : String) : String := ⟨s.data.map Char.toLower⟩

/-- fuzzyMatch: case-insensitive substring containment (the fuzzy
character pass was removed in the source, leaving only `includes`). -/
def fuzzyMatch (text query : String) : Bool :=
  occursInL (toLowerL query).data (toLowerL text).data

/-- Whether a meeting matches the query: title match, or summary present,
non-empty (JS truthiness) and matching. -/
def matchesQ (q : String) (m : MeetingL) : Bool :=
  fuzzyMatch m.title q ||
    (match m.summary with
     | some s => if s == "" then false else fuzzyMatch s q
     | none => false)

/-- Result row built for an accepted meeting. -/
def toResult (m : MeetingL) : SearchResultL :=
  { id := m.id, type := "meeting", title := m.title, meetingId := m.id }

/-- The search loop of searchMeetings: skip ids already seen, push a result
on a match, stop as soon as five results are collected. -/
def searchGo (q : String) : List MeetingL → List String → List SearchResultL → List SearchResultL
  | [], _, acc => acc
  | m :: rest, seen, acc =>
    if seen.contains m.id then searchGo q rest seen acc
    else if matchesQ q m then
      let acc1 := acc ++ [toResult m]
      if 5 ≤ acc1.length then acc1 else searchGo q rest (m.id :: seen) acc1
    else searchGo q rest seen acc

/-- searchMeetings: empty for a blank query, otherwise the bounded scan. -/
def searchMeetings (ms : List MeetingL) (q : String) : List SearchResultL :=
  if trimL q == "" then [] else searchGo q ms [] []

/-! ## DatabaseManager (src/unnamed/part_001)

The SQLite store is modelled as lists of rows per table.  better-sqlite3
enables foreign-key enforcement, so the `ON DELETE CASCADE` clauses of the
schema (part_001 lines 85-142) are part of the semantics of both `DELETE`
and the implicit delete performed by `INSERT OR REPLACE` on a conflicting
primary key. -/

/-- The detailedSummary JSON object.  Every key is optional: the stored
JSON holds whatever keys were written. -/
structure DetailedSummary where
  overview : Option String
  actionItems : Option (List String)
  keyPoints : Option (List String)
  actionItemsTitle : Option String
  keyPointsTitle : Option String
  deriving Repr, DecidableEq

/-- Parsed form of the summary_json column. -/
structure SummaryData where
  legacySummary : Option String
  detailedSummary : Option DetailedSummary
  deriving Repr, DecidableEq

structure MeetingRow where
  id : String
  title : String
  start_time : Nat
  duration_ms : Nat
  summary : SummaryData
  created_at : String
  calendar_event_id : Option String
  source : String
  is_processed : Bool
  deriving Repr, DecidableEq

structure TranscriptRow where
  meeting_id : String
  speaker : String
  content : String
  timestamp_ms : Nat
  deriving Repr, DecidableEq

structure InteractionRow where
  meeting_id : String
  type : String
  timestamp : Nat
  user_query : Option String
  ai_response : Option String
  /-- Parsed form of metadata_json (always a JSON string array when set). -/
  metadata : Option (List String)
  deriving Repr, DecidableEq

structure ChunkRow where
  meeting_id : String
  chunk_index : Nat
  speaker : Option String
  start_timestamp_ms : Nat
  end_timestamp_ms : Nat
  cleaned_text : String
  token_count : Nat
  embedding : Option (List Nat)
  deriving Repr, DecidableEq

structure ChunkSummaryRow where
  meeting_id : String
  summary_text : String
  embedding : Option (List Nat)
  deriving Repr, DecidableEq

structure QueueRow where
  meeting_id : String
  chunk_id : Option Nat
  status : String
  retry_count : Nat
  error_message : Option String
  deriving Repr, DecidableEq

/-- The database state: one list of rows per table. -/
structure DBState where
  meetings : List MeetingRow
  transcripts : List TranscriptRow
  interactions : List InteractionRow
  chunks : List ChunkRow
  chunkSummaries : List ChunkSummaryRow
  queue : List QueueRow
  deriving Repr, DecidableEq

/-- A usage entry's answer: the in-memory value is a string or, for
followup_questions, an array (see part_001 lines 242-248). -/
inductive AnswerVal where
  | str (s : String)
  | arr (l : List String)
  deriving Repr, DecidableEq

structure UsageEntry where
  type : String
  timestamp : Nat
  question : Option String
  answer : Option AnswerVal
  items : Option (List String)
  deriving Repr, DecidableEq

/-- The Meeting interface of part_001. -/
structure Meeting where
  id : String
  title : String
  date : String
  duration : String
  summary : String
  detailedSummary : Option DetailedSummary
  transcript : Option (List TEntry)
  usage : Option (List UsageEntry)
  calendarEventId : Option String
  source : Option String
  isProcessed : Option Bool
  deriving Repr, DecidableEq

/-- The meetings row written by saveMeeting (part_001 lines 205-222),
with the JS `|| null`, `|| 'manual'` and `? 1 : 0` coercions explicit. -/
def meetingRowOf (m : Meeting) (startMs durMs : Nat) : MeetingRow :=
  { id := m.id
    title := m.title
    start_time := startMs
    duration_ms := durMs
    summary := { legacySummary := some m.summary, detailedSummary := m.detailedSummary }
    created_at := m.date
    calendar_event_id :=
      match m.calendarEventId with
      | some c => if c == "" then none else some c
      | none => none
    source :=
      match m.source with
      | some s => if s == "" then "manual" else s
      | none => "manual"
    is_processed := m.isProcessed.getD false }

def transcriptRowOf (mid : String) (t : TEntry) : TranscriptRow :=
  { meeting_id := mid, speaker := t.speaker, content := t.text, timestamp_ms := t.timestamp }

/-- metadata_json computed for a usage entry (part_001 lines 239-249). -/
def usageMetadata (u : UsageEntry) : Option (List String) :=
  match u.items with
  | some l => some l
  | none =>
    match u.answer with
    | some (.arr l) => if u.type == "followup_questions" then some l else none
    | _ => none

/-- Normalized ai_response (part_001 line 252): null for an array answer,
and `answer || null` otherwise. -/
def usageAnswerText (u : UsageEntry) : Option String :=
  match u.answer with
  | some (.str s) => if s == "" then none else some s
  | _ => none

/-- Normalized user_query (part_001 line 253): `question || null`. -/
def usageQueryText (u : UsageEntry) : Option String :=
  match u.question with
  | some q => if q == "" then none else some q
  | none => none

def interactionRowOf (mid : String) (u : UsageEntry) : InteractionRow :=
  { meeting_id := mid, type := u.type, timestamp := u.timestamp
    user_query := usageQueryText u, ai_response := usageAnswerText u
    metadata := usageMetadata u }

/-- INSERT OR REPLACE INTO meetings: when a row with the same primary key
exists, SQLite deletes it first, and with foreign keys enabled that implicit
delete runs the `ON DELETE CASCADE` actions of the child tables; the new row
is then inserted. -/
def replaceMeetingRow (row : MeetingRow) (s : DBState) : DBState :=
  if s.meetings.any (·.id == row.id) then
    { meetings := s.meetings.filter (fun r => r.id != row.id) ++ [row]
      transcripts := s.transcripts.filter (fun r => r.meeting_id != row.id)
      interactions := s.interactions.filter (fun r => r.meeting_id != row.id)
      chunks := s.chunks.filter (fun r => r.meeting_id != row.id)
      chunkSummaries := s.chunkSummaries.filter (fun r => r.meeting_id != row.id)
      queue := s.queue }
  else { s with meetings := s.meetings ++ [row] }

/-- One run of the prepared insertTranscript statement. -/
def transcriptOp (mid : String) (t : TEntry) : DBState → DBState :=
  fun s => { s with transcripts := s.transcripts ++ [transcriptRowOf mid t] }

/-- One run of the prepared insertInteraction statement. -/
def interactionOp (mid : String) (u : UsageEntry) : DBState → DBState :=
  fun s => { s with interactions := s.interactions ++ [interactionRowOf mid u] }

/-- The sequence of row inserts performed inside the saveMeeting
transaction (part_001 lines 210-265), in execution order. -/
def txOps (m : Meeting) (startMs durMs : Nat) : List (DBState → DBState) :=
  (fun s => replaceMeetingRow (meetingRowOf m startMs durMs) s)
  :: ((m.transcript.getD []).map (transcriptOp m.id))
  ++ ((m.usage.getD []).map (interactionOp m.id))

/-- Run a sequence of inserts; `env k = true` means the k-th statement
throws.  Returns `none` on the first failure. -/
def applySeq (env : Nat → Bool) : List (DBState → DBState) → Nat → DBState → Option DBState
  | [], _, s => some s
  | f :: fs, k, s => if env k then none else applySeq env fs (k + 1) (f s)

/-- The same sequence of inserts with no failures. -/
def txApply (ops : List (DBState → DBState)) (s : DBState) : DBState :=
  ops.foldl (fun s f => f s) s

/-- saveMeeting (part_001 lines 184-274): all inserts run inside one
better-sqlite3 transaction, so a failure of any statement rolls the state
back and the error is rethrown (modelled as the returned error). -/
def saveMeeting (env : Nat → Bool) (m : Meeting) (startMs durMs : Nat) (s : DBState) :
    DBState × Option String :=
  match applySeq env (txOps m startMs durMs) 0 s with
  | some s1 => (s1, none)
  | none => (s, some "SqliteError")

/-- updateMeetingTitle (part_001 lines 276-286): UPDATE ... WHERE id;
returns `changes > 0`. -/
def updateMeetingTitle (id title : String) (s : DBState) : Bool × DBState :=
  (s.meetings.any (·.id == id),
   { s with meetings := s.meetings.map (fun r => if r.id == id then { r with title := title } else r) })

/-- The updates argument of updateMeetingSummary: a key is `some` exactly
when the caller passed it. -/
structure SummaryUpdates where
  overview : Option String
  actionItems : Option (List String)
  keyPoints : Option (List String)
  actionItemsTitle : Option String
  keyPointsTitle : Option String
  deriving Repr, DecidableEq

/-- JS object-spread override: a key present in the update wins, otherwise
the current value is kept. -/
def pick (u c : Option α) : Option α :=
  match u with
  | some v => some v
  | none => c

def emptyDetailed : DetailedSummary :=
  { overview := none, actionItems := none, keyPoints := none
    actionItemsTitle := none, keyPointsTitle := none }

/-- `{ ...currentDetailed, ...updates }` (part_001 lines 300-303). -/
def mergeDetailed (c : DetailedSummary) (u : SummaryUpdates) : DetailedSummary :=
  { overview := pick u.overview c.overview
    actionItems := pick u.actionItems c.actionItems
    keyPoints := pick u.keyPoints c.keyPoints
    actionItemsTitle := pick u.actionItemsTitle c.actionItemsTitle
    keyPointsTitle := pick u.keyPointsTitle c.keyPointsTitle }

/-- `{ ...existingData, detailedSummary: newDetailed }` (part_001 lines
312-315): legacySummary is carried over untouched. -/
def mergedSummary (d : SummaryData) (u : SummaryUpdates) : SummaryData :=
  { legacySummary := d.legacySummary
    detailedSummary := some (mergeDetailed (d.detailedSummary.getD emptyDetailed) u) }

/-- updateMeetingSummary (part_001 lines 288-328): read the row, merge in
memory, write the merged JSON back; `false` when the meeting is missing. -/
def updateMeetingSummary (id : String) (u : SummaryUpdates) (s : DBState) : Bool × DBState :=
  match s.meetings.find? (·.id == id) with
  | none => (false, s)
  | some row =>
    (true,
     { s with meetings :=
        s.meetings.map (fun r => if r.id == id then { r with summary := mergedSummary row.summary u } else r) })

/-- deleteMeeting (part_001 lines 432-444): DELETE FROM meetings WHERE id,
cascading into transcripts, ai_interactions, chunks and chunk_summaries;
the embedding_queue table has no foreign key and is untouched. -/
def deleteMeeting (id : String) (s : DBState) : Bool × DBState :=
  if s.meetings.any (·.id == id) then
    (true,
     { meetings := s.meetings.filter (fun r => r.id != id)
       transcripts := s.transcripts.filter (fun r => r.meeting_id != id)
       interactions := s.interactions.filter (fun r => r.meeting_id != id)
       chunks := s.chunks.filter (fun r => r.meeting_id != id)
       chunkSummaries := s.chunkSummaries.filter (fun r => r.meeting_id != id)
       queue := s.queue })
  else (false, s)

/-! ## Chunker (spec §4.1)

Modelled from the spec: the Chunker implementation is not under src/; only
the chunks schema it fills (part_001 lines 113-129) is.  Utterances
accumulate in a buffer; a chunk is finalized when the estimated token count
reaches the ceiling, the wall-clock span since the buffer's first utterance
is exceeded, or the speaker changes after a minimum buffer size; flush
forces the remainder out. -/

structure Utter where
  speaker : String
  text : String
  ts : Nat
  deriving Repr, DecidableEq

structure ChunkOut where
  idx : Nat
  start_ts : Nat
  end_ts : Nat
  text : String
  deriving Repr, DecidableEq

structure ChunkerConfig where
  tokEst : String → Nat
  ceiling : Nat
  maxSpan : Nat
  minBuf : Nat

/-- Speaker-normalized concatenation of the buffered utterances. -/
def cleanedText (buf : List Utter) : String :=
  joinSep " " (buf.map (fun u => (if u.speaker == "user" then "Me: " else "Them: ") ++ u.text))

structure CState where
  buffer : List Utter
  nextIdx : Nat
  out : List ChunkOut
  deriving Repr

def initC : CState := { buffer := [], nextIdx := 0, out := [] }

/-- Materialize the buffer as the next chunk; a no-op on an empty buffer. -/
def finalizeB (st : CState) : CState :=
  match st.buffer with
  | [] => st
  | u :: us =>
    { buffer := []
      nextIdx := st.nextIdx + 1
      out := st.out ++ [{ idx := st.nextIdx
                          start_ts := u.ts
                          end_ts := ((u :: us).getLast?.getD u).ts
                          text := cleanedText (u :: us) }] }

/-- Wall-clock span of a buffer: last timestamp minus first. -/
def spanOf : List Utter → Nat
  | [] => 0
  | u :: us => ((u :: us).getLast?.getD u).ts - u.ts

/-- Add the utterance to the buffer, then finalize if the token ceiling is
reached or the maximum span is exceeded. -/
def pushCheck (cfg : ChunkerConfig) (st : CState) (u : Utter) : CState :=
  if cfg.ceiling ≤ cfg.tokEst (cleanedText (st.buffer ++ [u]))
      ∨ cfg.maxSpan < spanOf (st.buffer ++ [u]) then
    finalizeB { st with buffer := st.buffer ++ [u] }
  else { st with buffer := st.buffer ++ [u] }

/-- Speaker-coherence break: the incoming speaker differs from the last
buffered one and the buffer already has the minimum size. -/
def speakerBreak (cfg : ChunkerConfig) (st : CState) (u : Utter) : Bool :=
  match st.buffer.getLast? with
  | none => false
  | some v => v.speaker != u.speaker && cfg.minBuf ≤ st.buffer.length

/-- append(utterance) of spec §4.1. -/
def appendU (cfg : ChunkerConfig) (st : CState) (u : Utter) : CState :=
  if speakerBreak cfg st u then pushCheck cfg (finalizeB st) u
  else pushCheck cfg st u

/-- Feed a whole transcript, then flush() at meeting end. -/
def runChunker (cfg : ChunkerConfig) (us : List Utter) : CState :=
  finalizeB (us.foldl (appendU cfg) initC)

/-! ## EmbeddingQueue job state machine (spec §4.3)

Modelled from the spec: the queue worker is not under src/; only the
embedding_queue schema (part_001 lines 144-157) is.  One `processJob` step
is a drain claiming a pending job, calling the embedding client, and
recording the outcome; non-pending jobs are never selected. -/

inductive JobStatus where
  | pending
  | inProgress
  | completed
  | failed
  deriving Repr, DecidableEq

structure EmbJob where
  status : JobStatus
  retryCount : Nat
  deriving Repr, DecidableEq

/-- The configured maximum retry count of spec §4.3. -/
def maxRetries : Nat := 5

/-- One drain step on a job: only a pending job is claimed; on success it
completes; on failure retry_count is incremented and the job goes back to
pending while retry_count < max, else it is failed terminally. -/
def processJob (maxR : Nat) (j : EmbJob) (ok : Bool) : EmbJob :=
  if j.status = .pending then
    if ok then { status := .completed, retryCount := j.retryCount }
    else if j.retryCount + 1 < maxR then { status := .pending, retryCount := j.retryCount + 1 }
    else { status := .failed, retryCount := j.retryCount + 1 }
  else j

def initJob : EmbJob := { status := .pending, retryCount := 0 }

/-- A job's life under a sequence of embedding-call outcomes. -/
def runJob (events : List Bool) : EmbJob :=
  events.foldl (processJob maxRetries) initJob

/-! ## Meeting summary upsert (spec §4.2 and the chunk_summaries schema)

Modelled from the spec: the summary writer is not under src/; the
chunk_summaries schema (part_001 lines 131-142) declares meeting_id UNIQUE,
and §4.2 says each recomputation fully replaces the prior text (and
invalidates the prior embedding). -/

def upsertChunkSummary (mid text : String) (rows : List ChunkSummaryRow) : List ChunkSummaryRow :=
  if rows.any (·.meeting_id == mid) then
    rows.map (fun r => if r.meeting_id == mid then { r with summary_text := text, embedding := none } else r)
  else rows ++ [{ meeting_id := mid, summary_text := text, embedding := none }]

/-! ## Lemmas: embedding queue -/

/-- Reachability invariant of a queue job. -/
def JobInv (j : EmbJob) : Prop :=
  j.retryCount ≤ maxRetries ∧
  (j.status = .pending → j.retryCount < maxRetries) ∧
  (j.status = .failed → j.retryCount = maxRetries)

theorem processJob_preserves_inv (j : EmbJob) (e : Bool) (h : JobInv j) :
    JobInv (processJob maxRetries j e) := by
  obtain ⟨h1, h2, h3⟩ := h
  unfold JobInv processJob
  split_ifs with hp he hr
  · exact ⟨h1, by intro hx; simp at hx, by intro hx; simp at hx⟩
  · have hlt := h2 hp
    exact ⟨by dsimp only; omega, fun _ => by dsimp only; omega, by intro hx; simp at hx⟩
  · have hlt := h2 hp
    dsimp only at hr ⊢
    exact ⟨by omega, by intro hx; simp at hx, fun _ => by omega⟩
  · exact ⟨h1, h2, h3⟩

theorem processJob_failed_fixed (j : EmbJob) (e : Bool) (h : j.status = .failed) :
    processJob maxRetries j e = j := by
  unfold processJob
  simp [h]

theorem foldl_processJob_inv (events : List Bool) :
    ∀ j : EmbJob, JobInv j → JobInv (events.foldl (processJob maxRetries) j) := by
  induction events with
  | nil => intro j h; exact h
  | cons e es ih =>
    intro j h
    exact ih _ (processJob_preserves_inv j e h)

theorem runJob_inv (events : List Bool) : JobInv (runJob events) :=
  foldl_processJob_inv events initJob ⟨by simp [initJob, maxRetries], fun _ => by simp [initJob, maxRetries], by simp [initJob]⟩

/-! ## Lemmas: chunk_summaries upsert -/

/-- The row text update performed on a conflict keeps the key. -/
theorem upsert_update_id (mid text : String) (r : ChunkSummaryRow) :
    (if r.meeting_id == mid then { r with summary_text := text, embedding := none } else r).meeting_id
      = r.meeting_id := by
  by_cases h : r.meeting_id == mid <;> simp [h]

theorem countP_le_one_of_pairwise (mid : String) (l : List ChunkSummaryRow)
    (h : l.Pairwise (fun a b => a.meeting_id ≠ b.meeting_id)) :
    l.countP (·.meeting_id == mid) ≤ 1 := by
  induction l with
  | nil => simp
  | cons a l ih =>
    rw [List.pairwise_cons] at h
    rw [List.countP_cons]
    by_cases ha : a.meeting_id = mid
    · have hz : l.countP (·.meeting_id == mid) = 0 := by
        rw [List.countP_eq_zero]
        intro b hb
        simp only [beq_iff_eq]
        intro hbm
        exact h.1 b hb (by rw [ha, hbm])
      simp [hz, ha]
    · have hcond : (a.meeting_id == mid) = false := by simpa using ha
      rw [hcond]
      simpa using ih h.2

/-- C4: in every reachable state of a queue job, retry_count never exceeds
the configured maximum (5); a terminally failed job has retry_count = 5 and
is never selected again; five consecutive failures end in status failed with
retry_count = 5. -/
theorem embedding_job_retry_spec (events : List Bool) :
    (runJob events).retryCount ≤ maxRetries ∧
    ((runJob events).status = .failed → (runJob events).retryCount = maxRetries) ∧
    (∀ e, (runJob events).status = .failed → processJob maxRetries (runJob events) e = runJob events) ∧
    runJob [false, false, false, false, false] = { status := .failed, retryCount := 5 } := by
  obtain ⟨h1, _, h3⟩ := runJob_inv events
  exact ⟨h1, h3, fun e hf => processJob_failed_fixed _ e hf, by decide⟩

theorem embedding_job_retry_spec_witness :
    (runJob [false, false, true, false, false, false, false]).retryCount ≤ maxRetries ∧
    (runJob [false, false, false, false, false]).retryCount = maxRetries := by
  refine ⟨(embedding_job_retry_spec [false, false, true, false, false, false, false]).1, ?_⟩
  exact (embedding_job_retry_spec [false, false, false, false, false]).2.1 (by decide)

/-- C6: under the UNIQUE(meeting_id) invariant of chunk_summaries, an
upsert keeps at most one row per meeting and a recomputation for an
existing meeting overwrites that row's text instead of appending. -/
theorem upsertChunkSummary_spec (mid text : String) (rows : List ChunkSummaryRow)
    (h : rows.Pairwise (fun a b => a.meeting_id ≠ b.meeting_id)) :
    (upsertChunkSummary mid text rows).Pairwise (fun a b => a.meeting_id ≠ b.meeting_id) ∧
    (upsertChunkSummary mid text rows).countP (·.meeting_id == mid) ≤ 1 ∧
    (rows.any (·.meeting_id == mid) = true →
      (upsertChunkSummary mid text rows).length = rows.length) ∧
    (∀ r ∈ upsertChunkSummary mid text rows, r.meeting_id = mid → r.summary_text = text) ∧
    (∀ r ∈ upsertChunkSummary mid text rows, r.meeting_id ≠ mid → r ∈ rows) := by
  unfold upsertChunkSummary
  by_cases hex : rows.any (·.meeting_id == mid) = true
  · simp only [hex, if_true]
    have hpair : (rows.map (fun r => if r.meeting_id == mid then { r with summary_text := text, embedding := none } else r)).Pairwise (fun a b => a.meeting_id ≠ b.meeting_id) := by
      rw [List.pairwise_map]
      refine h.imp_of_mem ?_
      intro a b _ _ hab
      rw [upsert_update_id, upsert_update_id]
      exact hab
    refine ⟨hpair, countP_le_one_of_pairwise mid _ hpair, fun _ => by simp, ?_, ?_⟩
    · intro r hr hrm
      obtain ⟨r0, _, hrw⟩ := List.mem_map.mp hr
      by_cases h0 : r0.meeting_id == mid
      · rw [if_pos h0] at hrw
        rw [← hrw]
      · rw [if_neg h0] at hrw
        subst hrw
        exact absurd hrm (by simpa using h0)
    · intro r hr hrm
      obtain ⟨r0, hr0, hrw⟩ := List.mem_map.mp hr
      by_cases h0 : r0.meeting_id == mid
      · rw [if_pos h0] at hrw
        exact absurd (hrw ▸ rfl : r.meeting_id = r0.meeting_id) (by simp_all)
      · rw [if_neg h0] at hrw
        exact hrw ▸ hr0
  · rw [if_neg hex]
    have hnone : ∀ a ∈ rows, a.meeting_id ≠ mid := by
      intro a ha hc
      exact hex (List.any_eq_true.mpr ⟨a, ha, by simpa using hc⟩)
    refine ⟨?_, ?_, fun hc => absurd hc hex, ?_, ?_⟩
    · rw [List.pairwise_append]
      refine ⟨h, by simp, ?_⟩
      intro a ha b hb
      simp only [List.mem_singleton] at hb
      subst hb
      exact hnone a ha
    · rw [List.countP_append]
      have hz : rows.countP (·.meeting_id == mid) = 0 := by
        rw [List.countP_eq_zero]
        intro a ha
        simpa using hnone a ha
      simp [hz]
    · intro r hr hrm
      rcases List.mem_append.mp hr with hl | hl
      · exact absurd hrm (hnone r hl)
      · simp only [List.mem_singleton] at hl
        rw [hl]
    · intro r hr hrm
      rcases List.mem_append.mp hr with hl | hl
      · exact hl
      · simp only [List.mem_singleton] at hl
        exact absurd (by rw [hl]) hrm

theorem upsertChunkSummary_spec_witness :
    ([⟨"m1", "old", some [1]⟩, ⟨"m2", "s2", none⟩] : List ChunkSummaryRow).Pairwise (fun a b => a.meeting_id ≠ b.meeting_id) ∧
    (∀ r ∈ upsertChunkSummary "m1" "new" [⟨"m1", "old", some [1]⟩, ⟨"m2", "s2", none⟩],
      r.meeting_id = "m1" → r.summary_text = "new") ∧
    (upsertChunkSummary "m1" "new" [⟨"m1", "old", some [1]⟩, ⟨"m2", "s2", none⟩]).length = 2 :=
  ⟨by decide,
   (upsertChunkSummary_spec "m1" "new" _ (by decide)).2.2.2.1,
   (upsertChunkSummary_spec "m1" "new" _ (by decide)).2.2.1 (by decide)⟩

/-! ## Lemmas: buildContextString -/

theorem joinSep_cons_data (sep p : String) (ps : List String) :
    ∃ t, (joinSep sep (p :: ps)).data = p.data ++ t := by
  cases ps with
  | nil => exact ⟨[], by simp [joinSep]⟩
  | cons q qs =>
    refine ⟨sep.data ++ (joinSep sep (q :: qs)).data, ?_⟩
    show ((p ++ sep) ++ joinSep sep (q :: qs)).data = _
    rw [string_data_append, string_data_append, List.append_assoc]

theorem buildContextString_data (ctx : MeetingContext) :
    ∃ t, (buildContextString ctx).data = ("MEETING: " ++ ctx.title).data ++ t := by
  unfold buildContextString contextParts
  rw [List.cons_append]
  exact joinSep_cons_data _ _ _

theorem buildContextString_ne_empty (ctx : MeetingContext) : buildContextString ctx ≠ "" := by
  obtain ⟨t, ht⟩ := buildContextString_data ctx
  intro h
  rw [h] at ht
  rw [string_data_append] at ht
  have hM : ("MEETING: " : String).data ≠ [] := by decide
  have : ("" : String).data = [] := rfl
  rw [this] at ht
  exact hM (List.append_eq_nil.mp (List.append_eq_nil.mp ht.symm).1).1

theorem title_occurs_in_context (ctx : MeetingContext) :
    occursInL ctx.title.data (buildContextString ctx).data = true := by
  obtain ⟨t, ht⟩ := buildContextString_data ctx
  rw [ht, string_data_append, List.append_assoc]
  exact occursInL_append_right _ _ _
    (occursInL_of_startsWithL _ _ (startsWithL_self_append _ _))

/-! ## Claims C1 and C2: submitQuestion routing and error surfacing -/

/-- A sample meeting context with a meeting id. -/
def exCtx : MeetingContext :=
  { id := some "m1", title := "Standup", summary := none, keyPoints := none
    actionItems := none, transcript := some [⟨"user", "hello", 0⟩] }

/-- C1: with no meeting id the raw context-window path is taken
unconditionally; with a meeting id the context-window fallback runs if and
only if the RAG call result reports fallback; with zero embedded chunks the
query resolves through the fallback, whose prompt embeds the (non-empty)
built context string, and the streamed tokens become the answer. -/
theorem submitQuestion_fallback_paths (embCount : Nat) (ctx : MeetingContext) (q : String)
    (env : QueryEnv) (hq : trimL q ≠ "") :
    (ctx.id = none →
      (submitQuestion embCount ctx q env).geminiPrompt = some (systemPromptFor ctx)) ∧
    (ctx.id ≠ none →
      ((submitQuestion embCount ctx q env).geminiPrompt ≠ none
        ↔ ragQueryMeeting embCount env = .fallbackFlag)) ∧
    (ctx.id ≠ none → embCount = 0 →
      (submitQuestion embCount ctx q env).geminiPrompt = some (systemPromptFor ctx) ∧
      buildContextString ctx ≠ "" ∧
      (∀ toks, env.gemini = .streamed toks →
        (submitQuestion embCount ctx q env).answer = some (concatL toks) ∧
        (submitQuestion embCount ctx q env).errorMessage = none)) := by
  have hqb : (trimL q == "") = false := by simpa using hq
  refine ⟨?_, ?_, ?_⟩
  · intro hid
    cases hg : env.gemini <;> simp [submitQuestion, hqb, hid, geminiRun, hg]
  · intro hid
    obtain ⟨mid, hctx⟩ := Option.ne_none_iff_exists'.mp hid
    cases hr : ragQueryMeeting embCount env <;> cases hg : env.gemini <;>
      simp [submitQuestion, hqb, hctx, hr, geminiRun, hg]
  · intro hid hemb
    have hr : ragQueryMeeting embCount env = .fallbackFlag := by simp [ragQueryMeeting, hemb]
    obtain ⟨mid, hctx⟩ := Option.ne_none_iff_exists'.mp hid
    refine ⟨?_, buildContextString_ne_empty ctx, ?_⟩
    · cases hg : env.gemini <;> simp [submitQuestion, hqb, hctx, hr, geminiRun, hg]
    · intro toks hg
      simp [submitQuestion, hqb, hctx, hr, geminiRun, hg]

theorem submitQuestion_fallback_paths_witness :
    trimL "hi" ≠ "" ∧
    (submitQuestion 0 exCtx "hi" ⟨.threw, .streamed ["An", " answer"]⟩).geminiPrompt
      = some (systemPromptFor exCtx) ∧
    (submitQuestion 0 exCtx "hi" ⟨.threw, .streamed ["An", " answer"]⟩).answer
      = some (concatL ["An", " answer"]) ∧
    concatL ["An", " answer"] ≠ "" := by
  have h := submitQuestion_fallback_paths 0 exCtx "hi" ⟨.threw, .streamed ["An", " answer"]⟩
    (by decide)
  have h3 := h.2.2 (by simp [exCtx]) rfl
  exact ⟨by decide, h3.1, (h3.2.2 _ rfl).1, by decide⟩

/-- C2 counterexample: a RAG stream error alone surfaces the
"couldn't get a response" banner even though the raw-context path was never
attempted and would have succeeded (the Gemini stream works). -/
theorem ragStreamError_surfaces_without_fallback :
    (submitQuestion 1 exCtx "hi" ⟨.streamErr "boom", .streamed ["ok"]⟩).errorMessage
      = some "Couldn't get a response. Please try again." ∧
    (submitQuestion 1 exCtx "hi" ⟨.streamErr "boom", .streamed ["ok"]⟩).geminiPrompt = none ∧
    (⟨.streamErr "boom", .streamed ["ok"]⟩ : QueryEnv).gemini ≠ .threw := by
  refine ⟨by decide, by decide, by decide⟩

/-- True exactly on a RAG stream error outcome. -/
def ragErrFlag : RagOut → Bool
  | .streamErr _ => true
  | _ => false

/-- C2 amended: the "couldn't get a response" banner is surfaced exactly
when a meeting id is present and the RAG stream reports an error; in that
case the context-window path is not attempted.  A fallback-flagged RAG
result never surfaces that banner and routes to the context-window path. -/
theorem errorBanner_characterization (embCount : Nat) (ctx : MeetingContext) (q : String)
    (env : QueryEnv) (hq : trimL q ≠ "") :
    ((submitQuestion embCount ctx q env).errorMessage
        = some "Couldn't get a response. Please try again."
      ↔ (ctx.id ≠ none ∧ ragErrFlag (ragQueryMeeting embCount env) = true)) ∧
    (ragErrFlag (ragQueryMeeting embCount env) = true → ctx.id ≠ none →
      (submitQuestion embCount ctx q env).geminiPrompt = none) ∧
    (ctx.id ≠ none → ragQueryMeeting embCount env = .fallbackFlag →
      (submitQuestion embCount ctx q env).errorMessage
        ≠ some "Couldn't get a response. Please try again." ∧
      (submitQuestion embCount ctx q env).geminiPrompt = some (systemPromptFor ctx)) := by
  have hqb : (trimL q == "") = false := by simpa using hq
  have hne : ("Something went wrong. Please try again." : String)
      ≠ "Couldn't get a response. Please try again." := by decide
  cases hctx : ctx.id with
  | none =>
    cases hg : env.gemini <;>
      simp [submitQuestion, hqb, hctx, geminiRun, hg, ragErrFlag, hne]
  | some mid =>
    cases hr : ragQueryMeeting embCount env <;> cases hg : env.gemini <;>
      simp [submitQuestion, hqb, hctx, hr, geminiRun, hg, ragErrFlag, hne]

theorem errorBanner_characterization_witness :
    (submitQuestion 1 exCtx "hi" ⟨.streamErr "x", .streamed ["ok"]⟩).geminiPrompt = none ∧
    (submitQuestion 0 exCtx "hi" ⟨.streamErr "x", .streamed ["ok"]⟩).geminiPrompt
      = some (systemPromptFor exCtx) := by
  have h1 := errorBanner_characterization 1 exCtx "hi" ⟨.streamErr "x", .streamed ["ok"]⟩ (by decide)
  have h2 := errorBanner_characterization 0 exCtx "hi" ⟨.streamErr "x", .streamed ["ok"]⟩ (by decide)
  exact ⟨h1.2.1 (by decide) (by simp [exCtx]), (h2.2.2 (by simp [exCtx]) (by decide)).2⟩

/-! ## Claim C3: buildContextString contents -/

/-- Mismatch of two lists where neither starts the other is preserved under
extending the second. -/
theorem startsWithL_append_of_ne (n p x : List Char)
    (h1 : startsWithL n p = false) (h2 : startsWithL p n = false) :
    startsWithL n (p ++ x) = false := by
  induction n generalizing p with
  | nil => simp [startsWithL] at h1
  | cons a as ih =>
    cases p with
    | nil => simp [startsWithL] at h2
    | cons b bs =>
      simp only [List.cons_append, startsWithL] at h1 h2 ⊢
      by_cases hab : a = b
      · subst hab
        simp only [beq_self_eq_true, Bool.true_and] at h1 h2 ⊢
        exact ih bs h1 h2
      · simp [beq_eq_false_iff_ne.mpr hab]

theorem any_false_of_mem (l : List String) (p : String → Bool)
    (h : ∀ s ∈ l, p s = false) : l.any p = false := by
  rw [List.any_eq_false]
  intro s hs
  simp [h s hs]

/-- Whether some part of the built context starts with the given section
header. -/
def hasSection (header : String) (ctx : MeetingContext) : Bool :=
  (contextParts ctx).any (fun p => startsWithL header.data p.data)

/-- JS truthiness of an optional string. -/
def strTruthy : Option String → Bool
  | some s => !(s == "")
  | none => false

/-- JS truthiness of `o?.length` for an optional array. -/
def listTruthy : Option (List α) → Bool
  | some l => !l.isEmpty
  | none => false

theorem mem_summaryBlock (o : Option String) (s' : String) (h : s' ∈ summaryBlock o) :
    ∃ s, s' = "\nSUMMARY:\n" ++ s := by
  cases o with
  | none => simp [summaryBlock] at h
  | some s =>
    by_cases he : s == ""
    · simp [summaryBlock, he] at h
    · simp only [summaryBlock, he, Bool.false_eq_true, if_false, List.mem_singleton] at h
      exact ⟨s, h⟩

theorem mem_keyPointsBlock (o : Option (List String)) (s' : String) (h : s' ∈ keyPointsBlock o) :
    ∃ s, s' = "\nKEY POINTS:\n" ++ s := by
  cases o with
  | none => simp [keyPointsBlock] at h
  | some l =>
    by_cases he : l.isEmpty
    · simp [keyPointsBlock, he] at h
    · simp only [keyPointsBlock, he, Bool.false_eq_true, if_false, List.mem_singleton] at h
      exact ⟨bulleted l, h⟩

theorem mem_actionItemsBlock (o : Option (List String)) (s' : String) (h : s' ∈ actionItemsBlock o) :
    ∃ s, s' = "\nACTION ITEMS:\n" ++ s := by
  cases o with
  | none => simp [actionItemsBlock] at h
  | some l =>
    by_cases he : l.isEmpty
    · simp [actionItemsBlock, he] at h
    · simp only [actionItemsBlock, he, Bool.false_eq_true, if_false, List.mem_singleton] at h
      exact ⟨bulleted l, h⟩

theorem mem_transcriptBlock (o : Option (List TEntry)) (s' : String) (h : s' ∈ transcriptBlock o) :
    ∃ s, s' = "\nRECENT TRANSCRIPT:\n" ++ s := by
  cases o with
  | none => simp [transcriptBlock] at h
  | some l =>
    by_cases he : l.isEmpty
    · simp [transcriptBlock, he] at h
    · simp only [transcriptBlock, he, Bool.false_eq_true, if_false, List.mem_singleton] at h
      exact ⟨joinSep "\n" ((lastN 20 l).map labelLine), h⟩

/-- A block whose members all carry the prefix `pre` contributes no match
for a header that is incompatible with `pre`. -/
theorem blockAny_false (hdr pre : String) (blk : List String)
    (hmem : ∀ s ∈ blk, ∃ t, s = pre ++ t)
    (h1 : startsWithL hdr.data pre.data = false)
    (h2 : startsWithL pre.data hdr.data = false) :
    blk.any (fun s => startsWithL hdr.data s.data) = false := by
  apply any_false_of_mem
  intro s hs
  obtain ⟨t, rfl⟩ := hmem s hs
  rw [string_data_append]
  exact startsWithL_append_of_ne _ _ _ h1 h2

theorem hasSection_summary (ctx : MeetingContext) :
    hasSection "\nSUMMARY:\n" ctx = strTruthy ctx.summary := by
  unfold hasSection contextParts
  simp only [List.any_append, List.any_cons, List.any_nil]
  have h0 : startsWithL ("\nSUMMARY:\n" : String).data (("MEETING: " ++ ctx.title) : String).data = false := by
    rw [string_data_append]
    exact startsWithL_append_of_ne _ _ _ (by decide) (by decide)
  have hk : (keyPointsBlock ctx.keyPoints).any (fun s => startsWithL ("\nSUMMARY:\n" : String).data s.data) = false :=
    blockAny_false _ "\nKEY POINTS:\n" _ (fun s hs => mem_keyPointsBlock _ s hs) (by decide) (by decide)
  have ha : (actionItemsBlock ctx.actionItems).any (fun s => startsWithL ("\nSUMMARY:\n" : String).data s.data) = false :=
    blockAny_false _ "\nACTION ITEMS:\n" _ (fun s hs => mem_actionItemsBlock _ s hs) (by decide) (by decide)
  have ht : (transcriptBlock ctx.transcript).any (fun s => startsWithL ("\nSUMMARY:\n" : String).data s.data) = false :=
    blockAny_false _ "\nRECENT TRANSCRIPT:\n" _ (fun s hs => mem_transcriptBlock _ s hs) (by decide) (by decide)
  have hs : (summaryBlock ctx.summary).any (fun s => startsWithL ("\nSUMMARY:\n" : String).data s.data) = strTruthy ctx.summary := by
    cases ho : ctx.summary with
    | none => simp [summaryBlock, strTruthy]
    | some s =>
      by_cases he : s == ""
      · simp [summaryBlock, strTruthy, he]
      · have hself : startsWithL ("\nSUMMARY:\n" : String).data (("\nSUMMARY:\n" ++ s) : String).data = true := by
          rw [string_data_append]
          exact startsWithL_self_append _ _
        simp [summaryBlock, strTruthy, he]
        exact hself
  rw [h0, hk, ha, ht, hs]
  simp

theorem hasSection_keyPoints (ctx : MeetingContext) :
    hasSection "\nKEY POINTS:\n" ctx = listTruthy ctx.keyPoints := by
  unfold hasSection contextParts
  simp only [List.any_append, List.any_cons, List.any_nil]
  have h0 : startsWithL ("\nKEY POINTS:\n" : String).data (("MEETING: " ++ ctx.title) : String).data = false := by
    rw [string_data_append]
    exact startsWithL_append_of_ne _ _ _ (by decide) (by decide)
  have hsb : (summaryBlock ctx.summary).any (fun s => startsWithL ("\nKEY POINTS:\n" : String).data s.data) = false :=
    blockAny_false _ "\nSUMMARY:\n" _ (fun s hs => mem_summaryBlock _ s hs) (by decide) (by decide)
  have ha : (actionItemsBlock ctx.actionItems).any (fun s => startsWithL ("\nKEY POINTS:\n" : String).data s.data) = false :=
    blockAny_false _ "\nACTION ITEMS:\n" _ (fun s hs => mem_actionItemsBlock _ s hs) (by decide) (by decide)
  have ht : (transcriptBlock ctx.transcript).any (fun s => startsWithL ("\nKEY POINTS:\n" : String).data s.data) = false :=
    blockAny_false _ "\nRECENT TRANSCRIPT:\n" _ (fun s hs => mem_transcriptBlock _ s hs) (by decide) (by decide)
  have hk : (keyPointsBlock ctx.keyPoints).any (fun s => startsWithL ("\nKEY POINTS:\n" : String).data s.data) = listTruthy ctx.keyPoints := by
    cases ho : ctx.keyPoints with
    | none => simp [keyPointsBlock, listTruthy]
    | some l =>
      by_cases he : l.isEmpty
      · simp [keyPointsBlock, listTruthy, he]
      · have hself : startsWithL ("\nKEY POINTS:\n" : String).data (("\nKEY POINTS:\n" ++ bulleted l) : String).data = true := by
          rw [string_data_append]
          exact startsWithL_self_append _ _
        simp [keyPointsBlock, listTruthy, he]
        exact hself
  rw [h0, hsb, ha, ht, hk]
  simp

theorem hasSection_actionItems (ctx : MeetingContext) :
    hasSection "\nACTION ITEMS:\n" ctx = listTruthy ctx.actionItems := by
  unfold hasSection contextParts
  simp only [List.any_append, List.any_cons, List.any_nil]
  have h0 : startsWithL ("\nACTION ITEMS:\n" : String).data (("MEETING: " ++ ctx.title) : String).data = false := by
    rw [string_data_append]
    exact startsWithL_append_of_ne _ _ _ (by decide) (by decide)
  have hsb : (summaryBlock ctx.summary).any (fun s => startsWithL ("\nACTION ITEMS:\n" : String).data s.data) = false :=
    blockAny_false _ "\nSUMMARY:\n" _ (fun s hs => mem_summaryBlock _ s hs) (by decide) (by decide)
  have hk : (keyPointsBlock ctx.keyPoints).any (fun s => startsWithL ("\nACTION ITEMS:\n" : String).data s.data) = false :=
    blockAny_false _ "\nKEY POINTS:\n" _ (fun s hs => mem_keyPointsBlock _ s hs) (by decide) (by decide)
  have ht : (transcriptBlock ctx.transcript).any (fun s => startsWithL ("\nACTION ITEMS:\n" : String).data s.data) = false :=
    blockAny_false _ "\nRECENT TRANSCRIPT:\n" _ (fun s hs => mem_transcriptBlock _ s hs) (by decide) (by decide)
  have ha : (actionItemsBlock ctx.actionItems).any (fun s => startsWithL ("\nACTION ITEMS:\n" : String).data s.data) = listTruthy ctx.actionItems := by
    cases ho : ctx.actionItems with
    | none => simp [actionItemsBlock, listTruthy]
    | some l =>
      by_cases he : l.isEmpty
      · simp [actionItemsBlock, listTruthy, he]
      · have hself : startsWithL ("\nACTION ITEMS:\n" : String).data (("\nACTION ITEMS:\n" ++ bulleted l) : String).data = true := by
          rw [string_data_append]
          exact startsWithL_self_append _ _
        simp [actionItemsBlock, listTruthy, he]
        exact hself
  rw [h0, hsb, hk, ht, ha]
  simp

theorem labelLine_eq (t : TEntry) :
    labelLine t = if t.speaker = "user" then "[Me]: " ++ t.text else "[Them]: " ++ t.text := by
  unfold labelLine
  by_cases h : t.speaker = "user"
  · simp [h]
  · simp [h]

/-- C3: the built context string is non-empty and contains the title; the
summary, key-points and action-items sections appear exactly when those
fields are present and non-empty; the transcript section holds the last
min(20, n) utterances, each labelled Me exactly for speaker `user`. -/
theorem buildContextString_spec (ctx : MeetingContext) :
    buildContextString ctx ≠ "" ∧
    occursInL ctx.title.data (buildContextString ctx).data = true ∧
    hasSection "\nSUMMARY:\n" ctx = strTruthy ctx.summary ∧
    hasSection "\nKEY POINTS:\n" ctx = listTruthy ctx.keyPoints ∧
    hasSection "\nACTION ITEMS:\n" ctx = listTruthy ctx.actionItems ∧
    (∀ l, ctx.transcript = some l → l ≠ [] →
      ("\nRECENT TRANSCRIPT:\n" ++ joinSep "\n" ((lastN 20 l).map labelLine)) ∈ contextParts ctx ∧
      (lastN 20 l).length = min 20 l.length ∧
      (lastN 20 l).map labelLine
        = (lastN 20 l).map (fun t => if t.speaker = "user" then "[Me]: " ++ t.text else "[Them]: " ++ t.text)) := by
  refine ⟨buildContextString_ne_empty ctx, title_occurs_in_context ctx,
    hasSection_summary ctx, hasSection_keyPoints ctx, hasSection_actionItems ctx, ?_⟩
  intro l hts hl
  have hie : l.isEmpty = false := by
    cases l with
    | nil => exact absurd rfl hl
    | cons a as => rfl
  refine ⟨?_, ?_, ?_⟩
  · simp [contextParts, transcriptBlock, hts, hie]
  · unfold lastN
    rw [List.length_drop]
    omega
  · exact List.map_congr_left (fun t _ => labelLine_eq t)

/-- Example transcript for the C3 witness. -/
def exTrans : List TEntry := [⟨"user", "hello", 0⟩, ⟨"them", "hey", 5⟩]

/-- Example meeting context for the C3 witness. -/
def exCtx3 : MeetingContext :=
  { id := none, title := "Kickoff", summary := some "We planned."
    keyPoints := some ["velocity"], actionItems := none, transcript := some exTrans }

theorem buildContextString_spec_witness :
    buildContextString exCtx3 ≠ "" ∧
    hasSection "\nSUMMARY:\n" exCtx3 = true ∧
    hasSection "\nACTION ITEMS:\n" exCtx3 = false ∧
    (lastN 20 exTrans).length = min 20 exTrans.length := by
  have h := buildContextString_spec exCtx3
  refine ⟨h.1, ?_, ?_, (h.2.2.2.2.2 exTrans rfl (by decide)).2.1⟩
  · rw [h.2.2.1]; rfl
  · rw [h.2.2.2.2.1]; rfl

/-! ## Claim C9: updateMeetingSummary frame conditions -/

/-- C9: updateMeetingSummary overwrites exactly the keys present in the
updates object inside detailedSummary, preserves every other detailedSummary
key and the legacySummary text, leaves all other tables and rows unchanged,
and returns false without modification when the meeting is missing. -/
theorem updateMeetingSummary_frame_spec (id : String) (u : SummaryUpdates) (s : DBState) :
    (s.meetings.find? (·.id == id) = none → updateMeetingSummary id u s = (false, s)) ∧
    (∀ row, s.meetings.find? (·.id == id) = some row →
      (updateMeetingSummary id u s).1 = true ∧
      (updateMeetingSummary id u s).2.transcripts = s.transcripts ∧
      (updateMeetingSummary id u s).2.interactions = s.interactions ∧
      (updateMeetingSummary id u s).2.chunks = s.chunks ∧
      (updateMeetingSummary id u s).2.chunkSummaries = s.chunkSummaries ∧
      (updateMeetingSummary id u s).2.queue = s.queue ∧
      (updateMeetingSummary id u s).2.meetings
        = s.meetings.map (fun r => if r.id == id then { r with summary := mergedSummary row.summary u } else r) ∧
      (∀ r ∈ s.meetings, r.id ≠ id → r ∈ (updateMeetingSummary id u s).2.meetings) ∧
      (mergedSummary row.summary u).legacySummary = row.summary.legacySummary ∧
      (∀ d, (mergedSummary row.summary u).detailedSummary = some d →
        (u.overview = none → d.overview = (row.summary.detailedSummary.getD emptyDetailed).overview) ∧
        (∀ v, u.overview = some v → d.overview = some v) ∧
        (u.actionItems = none → d.actionItems = (row.summary.detailedSummary.getD emptyDetailed).actionItems) ∧
        (∀ v, u.actionItems = some v → d.actionItems = some v) ∧
        (u.keyPoints = none → d.keyPoints = (row.summary.detailedSummary.getD emptyDetailed).keyPoints) ∧
        (∀ v, u.keyPoints = some v → d.keyPoints = some v) ∧
        (u.actionItemsTitle = none → d.actionItemsTitle = (row.summary.detailedSummary.getD emptyDetailed).actionItemsTitle) ∧
        (∀ v, u.actionItemsTitle = some v → d.actionItemsTitle = some v) ∧
        (u.keyPointsTitle = none → d.keyPointsTitle = (row.summary.detailedSummary.getD emptyDetailed).keyPointsTitle) ∧
        (∀ v, u.keyPointsTitle = some v → d.keyPointsTitle = some v))) := by
  constructor
  · intro hnone
    simp [updateMeetingSummary, hnone]
  · intro row hfind
    have hmain : updateMeetingSummary id u s
        = (true, { s with meetings := s.meetings.map (fun r => if r.id == id then { r with summary := mergedSummary row.summary u } else r) }) := by
      simp [updateMeetingSummary, hfind]
    refine ⟨by rw [hmain], by rw [hmain], by rw [hmain], by rw [hmain], by rw [hmain],
      by rw [hmain], by rw [hmain], ?_, rfl, ?_⟩
    · intro r hr hne
      rw [hmain]
      simp only [List.mem_map]
      refine ⟨r, hr, ?_⟩
      rw [if_neg (by simpa using hne)]
    · intro d hd
      have hde : d = mergeDetailed (row.summary.detailedSummary.getD emptyDetailed) u := by
        have : (mergedSummary row.summary u).detailedSummary
            = some (mergeDetailed (row.summary.detailedSummary.getD emptyDetailed) u) := rfl
        rw [this] at hd
        exact (Option.some_inj.mp hd).symm
      subst hde
      refine ⟨?_, ?_, ?_, ?_, ?_, ?_, ?_, ?_, ?_, ?_⟩ <;>
        first
          | (intro hu; simp [mergeDetailed, pick, hu])
          | (intro v hu; simp [mergeDetailed, pick, hu])

/-- Example database row set for the C9 witness. -/
def exRow9 : MeetingRow :=
  { id := "m9", title := "Weekly", start_time := 0, duration_ms := 1000
    summary := { legacySummary := some "legacy"
                 detailedSummary := some { overview := some "old view", actionItems := some ["do x"]
                                           keyPoints := none, actionItemsTitle := none, keyPointsTitle := none } }
    created_at := "2020-01-01", calendar_event_id := none, source := "manual", is_processed := true }

def exState9 : DBState :=
  { meetings := [exRow9], transcripts := [], interactions := []
    chunks := [⟨"m9", 0, none, 0, 1, "c", 1, none⟩], chunkSummaries := [], queue := [] }

def exUpd9 : SummaryUpdates :=
  { overview := some "new view", actionItems := none, keyPoints := none
    actionItemsTitle := none, keyPointsTitle := none }

theorem updateMeetingSummary_frame_spec_witness :
    (updateMeetingSummary "m9" exUpd9 exState9).1 = true ∧
    (updateMeetingSummary "m9" exUpd9 exState9).2.chunks = exState9.chunks ∧
    (mergedSummary exRow9.summary exUpd9).legacySummary = exRow9.summary.legacySummary := by
  have h := (updateMeetingSummary_frame_spec "m9" exUpd9 exState9).2 exRow9 (by rfl)
  exact ⟨h.1, h.2.2.2.1, h.2.2.2.2.2.2.2.2.1⟩

/-! ## Claim C5: deleteMeeting cascade and the chunk-removal frame -/

theorem applySeq_chunks_invariant (env : Nat → Bool) (fs : List (DBState → DBState))
    (h : ∀ f ∈ fs, ∀ st : DBState, (f st).chunks = st.chunks) :
    ∀ (k : Nat) (s s' : DBState), applySeq env fs k s = some s' → s'.chunks = s.chunks := by
  induction fs with
  | nil =>
    intro k s s' hs
    simp only [applySeq, Option.some_inj] at hs
    rw [← hs]
  | cons f fs ih =>
    intro k s s' hs
    unfold applySeq at hs
    by_cases he : env k = true
    · simp [he] at hs
    · rw [if_neg (by simpa using he)] at hs
      have h1 := ih (fun g hg st => h g (List.mem_cons_of_mem f hg) st) (k + 1) (f s) s' hs
      rw [h1, h f (List.mem_cons_self f fs) s]

theorem applySeq_cons (env : Nat → Bool) (f : DBState → DBState)
    (fs : List (DBState → DBState)) (k : Nat) (s : DBState) :
    applySeq env (f :: fs) k s = if env k then none else applySeq env fs (k + 1) (f s) := rfl

theorem txOps_tail_chunks (m : Meeting) (st : DBState) :
    ∀ f ∈ ((m.transcript.getD []).map (transcriptOp m.id))
          ++ ((m.usage.getD []).map (interactionOp m.id)),
      (f st).chunks = st.chunks := by
  intro f hf
  rcases List.mem_append.mp hf with hl | hl
  · obtain ⟨t, _, rfl⟩ := List.mem_map.mp hl
    rfl
  · obtain ⟨u, _, rfl⟩ := List.mem_map.mp hl
    rfl

theorem saveMeeting_chunks_cases (env : Nat → Bool) (m : Meeting) (a b : Nat) (s : DBState) :
    (saveMeeting env m a b s).1.chunks = s.chunks ∨
    (s.meetings.any (·.id == m.id) = true ∧
     (saveMeeting env m a b s).1.chunks = s.chunks.filter (fun r => r.meeting_id != m.id)) := by
  have e1 : applySeq env (txOps m a b) 0 s
      = if env 0 then none
        else applySeq env (((m.transcript.getD []).map (transcriptOp m.id))
              ++ ((m.usage.getD []).map (interactionOp m.id))) 1
              (replaceMeetingRow (meetingRowOf m a b) s) := rfl
  have e2 : saveMeeting env m a b s
      = match applySeq env (txOps m a b) 0 s with
        | some s1 => (s1, none)
        | none => (s, some "SqliteError") := rfl
  rw [e2, e1]
  by_cases he : env 0 = true
  · rw [if_pos he]
    simp
  · rw [if_neg (by simpa using he)]
    cases hres : applySeq env
        (((m.transcript.getD []).map (transcriptOp m.id)) ++ ((m.usage.getD []).map (interactionOp m.id)))
        1 (replaceMeetingRow (meetingRowOf m a b) s) with
    | none => simp
    | some s1 =>
      have h1 : s1.chunks = (replaceMeetingRow (meetingRowOf m a b) s).chunks :=
        applySeq_chunks_invariant env _ (fun f hf st => txOps_tail_chunks m st f hf) 1 _ s1 hres
      have hid : (meetingRowOf m a b).id = m.id := rfl
      unfold replaceMeetingRow at h1
      rw [hid] at h1
      by_cases hex : s.meetings.any (·.id == m.id) = true
      · right
        refine ⟨hex, ?_⟩
        show s1.chunks = _
        rw [if_pos hex] at h1
        simpa using h1
      · left
        show s1.chunks = _
        rw [if_neg hex] at h1
        simpa using h1

/-- C5 counterexample input: a meeting value re-saving the existing id m9. -/
def exMeeting5 : Meeting :=
  { id := "m9", title := "T", date := "2020-01-02", duration := "1:00", summary := "s"
    detailedSummary := none, transcript := none, usage := none
    calendarEventId := none, source := none, isProcessed := none }

/-- C5 counterexample: saveMeeting on an existing meeting id also removes
that meeting's chunks — INSERT OR REPLACE implicitly deletes the old
meetings row and the chunks cascade fires — so deleteMeeting's cascade is
not the only chunk-removing operation. -/
theorem saveMeeting_replace_cascades_chunks :
    (saveMeeting (fun _ => false) exMeeting5 0 0 exState9).2 = none ∧
    (saveMeeting (fun _ => false) exMeeting5 0 0 exState9).1.chunks = [] ∧
    exState9.chunks ≠ [] := by
  refine ⟨by decide, by decide, by decide⟩

/-- C5 amended: deleteMeeting removes the meeting row and cascade-deletes
every chunk, chunk summary, transcript and interaction row of that meeting,
leaving rows of other meetings (and the embedding queue) unchanged, and is
a no-op returning false when the meeting does not exist; chunks are removed
only by this foreign-key cascade, which deleteMeeting triggers and which
saveMeeting also triggers when it re-saves an existing meeting id; no
operation other than these removes or alters chunk rows. -/
theorem deleteMeeting_cascade_spec (id : String) (s : DBState) :
    (deleteMeeting id s).1 = s.meetings.any (·.id == id) ∧
    ((deleteMeeting id s).1 = false → (deleteMeeting id s).2 = s) ∧
    ((deleteMeeting id s).1 = true →
      (∀ r : MeetingRow, r ∈ (deleteMeeting id s).2.meetings ↔ r ∈ s.meetings ∧ r.id ≠ id) ∧
      (∀ r : ChunkRow, r ∈ (deleteMeeting id s).2.chunks ↔ r ∈ s.chunks ∧ r.meeting_id ≠ id) ∧
      (∀ r : ChunkSummaryRow, r ∈ (deleteMeeting id s).2.chunkSummaries ↔ r ∈ s.chunkSummaries ∧ r.meeting_id ≠ id) ∧
      (∀ r : TranscriptRow, r ∈ (deleteMeeting id s).2.transcripts ↔ r ∈ s.transcripts ∧ r.meeting_id ≠ id) ∧
      (∀ r : InteractionRow, r ∈ (deleteMeeting id s).2.interactions ↔ r ∈ s.interactions ∧ r.meeting_id ≠ id) ∧
      (deleteMeeting id s).2.queue = s.queue) ∧
    (∀ t, (updateMeetingTitle id t s).2.chunks = s.chunks) ∧
    (∀ u, (updateMeetingSummary id u s).2.chunks = s.chunks) ∧
    (∀ (env : Nat → Bool) (m : Meeting) (a b : Nat),
      s.meetings.any (·.id == m.id) = false → (saveMeeting env m a b s).1.chunks = s.chunks) ∧
    (∀ (env : Nat → Bool) (m : Meeting) (a b : Nat) (r : ChunkRow),
      r ∈ (saveMeeting env m a b s).1.chunks → r ∈ s.chunks) := by
  refine ⟨?_, ?_, ?_, ?_, ?_, ?_, ?_⟩
  · by_cases hex : s.meetings.any (·.id == id) = true <;> simp [deleteMeeting, hex]
  · intro hf
    by_cases hex : s.meetings.any (·.id == id) = true
    · simp [deleteMeeting, hex] at hf
    · simp [deleteMeeting, hex]
  · intro ht
    by_cases hex : s.meetings.any (·.id == id) = true
    · refine ⟨?_, ?_, ?_, ?_, ?_, by simp [deleteMeeting, hex]⟩ <;>
        (intro r; simp [deleteMeeting, hex, List.mem_filter])
    · simp [deleteMeeting, hex] at ht
  · intro t
    simp [updateMeetingTitle]
  · intro u
    cases hf : s.meetings.find? (·.id == id) <;> simp [updateMeetingSummary, hf]
  · intro env m a b hfresh
    rcases saveMeeting_chunks_cases env m a b s with h | ⟨hex, _⟩
    · exact h
    · rw [hfresh] at hex
      exact absurd hex (by simp)
  · intro env m a b r hr
    rcases saveMeeting_chunks_cases env m a b s with h | ⟨_, h⟩
    · rw [h] at hr
      exact hr
    · rw [h] at hr
      exact (List.mem_filter.mp hr).1

theorem deleteMeeting_cascade_spec_witness :
    (deleteMeeting "m9" exState9).1 = true ∧
    (∀ r : ChunkRow, r ∈ (deleteMeeting "m9" exState9).2.chunks
      ↔ r ∈ exState9.chunks ∧ r.meeting_id ≠ "m9") := by
  have h := deleteMeeting_cascade_spec "m9" exState9
  have h1 : (deleteMeeting "m9" exState9).1 = true := by
    rw [h.1]
    rfl
  exact ⟨h1, (h.2.2.1 h1).2.1⟩

/-! ## Claim C8: saveMeeting is transactional -/

theorem applySeq_isSome_iff (env : Nat → Bool) (fs : List (DBState → DBState)) :
    ∀ (k : Nat) (s : DBState),
      (applySeq env fs k s).isSome = true ↔ ∀ i < fs.length, env (k + i) = false := by
  induction fs with
  | nil => intro k s; simp [applySeq]
  | cons f fs ih =>
    intro k s
    rw [applySeq_cons]
    by_cases he : env k = true
    · rw [if_pos he]
      simp only [Option.isSome_none, Bool.false_eq_true, false_iff, not_forall]
      exact ⟨0, by simp, by simp [he]⟩
    · have hkf : env k = false := by simpa using he
      rw [if_neg he, ih (k + 1) (f s)]
      constructor
      · intro hall i hi
        rw [List.length_cons] at hi
        cases i with
        | zero => simpa using hkf
        | succ j =>
          have hj := hall j (by omega)
          rw [show k + (j + 1) = k + 1 + j by omega]
          exact hj
      · intro hall i hi
        have hj := hall (i + 1) (by rw [List.length_cons]; omega)
        rw [show k + 1 + i = k + (i + 1) by omega]
        exact hj

theorem applySeq_ok_eq (env : Nat → Bool) (fs : List (DBState → DBState)) :
    ∀ (k : Nat) (s s' : DBState), applySeq env fs k s = some s' → s' = txApply fs s := by
  induction fs with
  | nil =>
    intro k s s' hs
    simp only [applySeq, Option.some_inj] at hs
    rw [← hs]
    rfl
  | cons f fs ih =>
    intro k s s' hs
    rw [applySeq_cons] at hs
    by_cases he : env k = true
    · rw [if_pos he] at hs
      simp at hs
    · rw [if_neg he] at hs
      exact ih (k + 1) (f s) s' hs

theorem txApply_append (l1 l2 : List (DBState → DBState)) (s : DBState) :
    txApply (l1 ++ l2) s = txApply l2 (txApply l1 s) := by
  simp [txApply, List.foldl_append]

theorem txApply_transcriptOps (mid : String) (ts : List TEntry) :
    ∀ s0 : DBState, txApply (ts.map (transcriptOp mid)) s0
      = { s0 with transcripts := s0.transcripts ++ ts.map (transcriptRowOf mid) } := by
  induction ts with
  | nil => intro s0; simp [txApply]
  | cons t ts ih =>
    intro s0
    show txApply (ts.map (transcriptOp mid)) (transcriptOp mid t s0) = _
    rw [ih (transcriptOp mid t s0)]
    simp [transcriptOp, List.append_assoc]

theorem txApply_interactionOps (mid : String) (us : List UsageEntry) :
    ∀ s0 : DBState, txApply (us.map (interactionOp mid)) s0
      = { s0 with interactions := s0.interactions ++ us.map (interactionRowOf mid) } := by
  induction us with
  | nil => intro s0; simp [txApply]
  | cons u us ih =>
    intro s0
    show txApply (us.map (interactionOp mid)) (interactionOp mid u s0) = _
    rw [ih (interactionOp mid u s0)]
    simp [interactionOp, List.append_assoc]

theorem replaceMeetingRow_queue (row : MeetingRow) (s : DBState) :
    (replaceMeetingRow row s).queue = s.queue := by
  unfold replaceMeetingRow
  by_cases h : s.meetings.any (·.id == row.id) = true <;> simp [h]

/-- C8: saveMeeting succeeds exactly when no statement in the transaction
fails; on success the meeting row is replaced and all transcript and
interaction rows of the call are appended; on any failure the state is
fully rolled back and the error is reported to the caller. -/
theorem saveMeeting_atomic_spec (env : Nat → Bool) (m : Meeting) (a b : Nat) (s : DBState) :
    ((saveMeeting env m a b s).2 = none ↔ ∀ k < (txOps m a b).length, env k = false) ∧
    ((saveMeeting env m a b s).2 ≠ none → (saveMeeting env m a b s).1 = s) ∧
    ((saveMeeting env m a b s).2 = none →
      (saveMeeting env m a b s).1.meetings = (replaceMeetingRow (meetingRowOf m a b) s).meetings ∧
      (saveMeeting env m a b s).1.transcripts
        = (replaceMeetingRow (meetingRowOf m a b) s).transcripts
          ++ (m.transcript.getD []).map (transcriptRowOf m.id) ∧
      (saveMeeting env m a b s).1.interactions
        = (replaceMeetingRow (meetingRowOf m a b) s).interactions
          ++ (m.usage.getD []).map (interactionRowOf m.id) ∧
      (saveMeeting env m a b s).1.chunks = (replaceMeetingRow (meetingRowOf m a b) s).chunks ∧
      (saveMeeting env m a b s).1.chunkSummaries
        = (replaceMeetingRow (meetingRowOf m a b) s).chunkSummaries ∧
      (saveMeeting env m a b s).1.queue = s.queue) := by
  have e2 : saveMeeting env m a b s
      = match applySeq env (txOps m a b) 0 s with
        | some s1 => (s1, none)
        | none => (s, some "SqliteError") := rfl
  have hiff := applySeq_isSome_iff env (txOps m a b) 0 s
  cases hres : applySeq env (txOps m a b) 0 s with
  | none =>
    rw [hres] at hiff
    rw [e2, hres]
    refine ⟨?_, fun _ => rfl, fun hn => by simp at hn⟩
    simp only [Option.isSome_none, Bool.false_eq_true, false_iff] at hiff
    simp only [Option.some_ne_none, false_iff]
    simpa using hiff
  | some s1 =>
    rw [hres] at hiff
    rw [e2, hres]
    have hok : ∀ k < (txOps m a b).length, env k = false := by
      have := hiff.mp (by simp)
      simpa using this
    refine ⟨by simpa using hok, fun hn => absurd rfl hn, fun _ => ?_⟩
    have hs1 : s1 = txApply (txOps m a b) s := applySeq_ok_eq env _ 0 s s1 hres
    have hdec : txApply (txOps m a b) s
        = txApply ((m.usage.getD []).map (interactionOp m.id))
            (txApply ((m.transcript.getD []).map (transcriptOp m.id))
              (replaceMeetingRow (meetingRowOf m a b) s)) := by
      have hstep : txApply (txOps m a b) s
          = txApply (((m.transcript.getD []).map (transcriptOp m.id))
              ++ ((m.usage.getD []).map (interactionOp m.id)))
              (replaceMeetingRow (meetingRowOf m a b) s) := rfl
      rw [hstep, txApply_append]
    rw [txApply_transcriptOps, txApply_interactionOps] at hdec
    rw [hs1, hdec]
    refine ⟨rfl, rfl, rfl, rfl, rfl, ?_⟩
    exact replaceMeetingRow_queue _ s

/-- Sample meeting value with transcript and usage rows for the C8 witness. -/
def exMeeting8 : Meeting :=
  { id := "m8", title := "W", date := "2021-05-05", duration := "0:10", summary := "sum"
    detailedSummary := none, transcript := some [⟨"user", "a", 1⟩]
    usage := some [⟨"chat", 2, some "q", some (.str "ans"), none⟩]
    calendarEventId := none, source := none, isProcessed := some true }

theorem saveMeeting_atomic_spec_witness :
    (saveMeeting (fun _ => false) exMeeting8 5 10 exState9).2 = none ∧
    (saveMeeting (fun k => k == 1) exMeeting8 5 10 exState9).1 = exState9 := by
  refine ⟨(saveMeeting_atomic_spec (fun _ => false) exMeeting8 5 10 exState9).1.mpr
    (fun k _ => rfl), ?_⟩
  exact (saveMeeting_atomic_spec (fun k => k == 1) exMeeting8 5 10 exState9).2.1 (by decide)

/-! ## Claim C10: searchMeetings -/

theorem searchGo_nil (q : String) (seen : List String) (acc : List SearchResultL) :
    searchGo q [] seen acc = acc := rfl

theorem searchGo_cons (q : String) (m : MeetingL) (rest : List MeetingL)
    (seen : List String) (acc : List SearchResultL) :
    searchGo q (m :: rest) seen acc =
      if seen.contains m.id then searchGo q rest seen acc
      else if matchesQ q m then
        (if 5 ≤ (acc ++ [toResult m]).length then acc ++ [toResult m]
         else searchGo q rest (m.id :: seen) (acc ++ [toResult m]))
      else searchGo q rest seen acc := rfl

theorem searchGo_length (q : String) (ms : List MeetingL) :
    ∀ (seen : List String) (acc : List SearchResultL),
      acc.length ≤ 4 → (searchGo q ms seen acc).length ≤ 5 := by
  induction ms with
  | nil =>
    intro seen acc h
    rw [searchGo_nil]
    omega
  | cons m rest ih =>
    intro seen acc h
    rw [searchGo_cons]
    by_cases h1 : seen.contains m.id = true
    · rw [if_pos h1]
      exact ih seen acc h
    · rw [if_neg h1]
      by_cases h2 : matchesQ q m = true
      · rw [if_pos h2]
        by_cases h3 : 5 ≤ (acc ++ [toResult m]).length
        · rw [if_pos h3]
          simp only [List.length_append, List.length_singleton]
          omega
        · rw [if_neg h3]
          apply ih
          simp only [List.length_append, List.length_singleton] at h3 ⊢
          omega
      · rw [if_neg h2]
        exact ih seen acc h

theorem searchGo_shape (q : String) (ms : List MeetingL) :
    ∀ (seen : List String) (acc : List SearchResultL),
      ∃ sub : List MeetingL, sub.Sublist ms ∧
        searchGo q ms seen acc = acc ++ sub.map toResult ∧
        ∀ m ∈ sub, matchesQ q m = true := by
  induction ms with
  | nil =>
    intro seen acc
    exact ⟨[], List.Sublist.refl [], by simp [searchGo_nil], by simp⟩
  | cons m rest ih =>
    intro seen acc
    by_cases h1 : seen.contains m.id = true
    · obtain ⟨sub, hsl, heq, hm⟩ := ih seen acc
      exact ⟨sub, hsl.cons m, by rw [searchGo_cons, if_pos h1]; exact heq, hm⟩
    · by_cases h2 : matchesQ q m = true
      · by_cases h3 : 5 ≤ (acc ++ [toResult m]).length
        · refine ⟨[m], (List.nil_sublist rest).cons₂ m, ?_, ?_⟩
          · rw [searchGo_cons, if_neg h1, if_pos h2, if_pos h3]
            simp
          · simp [h2]
        · obtain ⟨sub, hsl, heq, hm⟩ := ih (m.id :: seen) (acc ++ [toResult m])
          refine ⟨m :: sub, hsl.cons₂ m, ?_, ?_⟩
          · rw [searchGo_cons, if_neg h1, if_pos h2, if_neg h3, heq]
            simp
          · intro x hx
            rcases List.mem_cons.mp hx with rfl | hx'
            · exact h2
            · exact hm x hx'
      · obtain ⟨sub, hsl, heq, hm⟩ := ih seen acc
        exact ⟨sub, hsl.cons m, by rw [searchGo_cons, if_neg h1, if_neg h2]; exact heq, hm⟩

theorem searchGo_nodup (q : String) (ms : List MeetingL) :
    ∀ (seen : List String) (acc : List SearchResultL),
      (∀ r ∈ acc, seen.contains r.meetingId = true) →
      (acc.map (·.meetingId)).Nodup →
      ((searchGo q ms seen acc).map (·.meetingId)).Nodup := by
  induction ms with
  | nil =>
    intro seen acc _ h2
    rw [searchGo_nil]
    exact h2
  | cons m rest ih =>
    intro seen acc h1 h2
    rw [searchGo_cons]
    by_cases hc : seen.contains m.id = true
    · rw [if_pos hc]
      exact ih seen acc h1 h2
    · rw [if_neg hc]
      have hnotin : m.id ∉ acc.map (·.meetingId) := by
        intro hmem
        obtain ⟨r, hr, hrid⟩ := List.mem_map.mp hmem
        have hcr := h1 r hr
        rw [hrid] at hcr
        exact hc hcr
      have hnodup1 : ((acc ++ [toResult m]).map (·.meetingId)).Nodup := by
        rw [List.map_append, List.nodup_append]
        refine ⟨h2, by simp, ?_⟩
        intro a ha hb
        simp only [List.map_cons, List.map_nil, List.mem_singleton, toResult] at hb
        rw [hb] at ha
        exact hnotin ha
      by_cases h2m : matchesQ q m = true
      · rw [if_pos h2m]
        by_cases h3 : 5 ≤ (acc ++ [toResult m]).length
        · rw [if_pos h3]
          exact hnodup1
        · rw [if_neg h3]
          apply ih (m.id :: seen) (acc ++ [toResult m]) ?_ hnodup1
          intro r hr
          rcases List.mem_append.mp hr with hl | hl
          · have hin := h1 r hl
            simp only [List.contains_cons, Bool.or_eq_true]
            exact Or.inr hin
          · simp only [List.mem_singleton] at hl
            rw [hl]
            simp [List.contains_cons, toResult]
      · rw [if_neg h2m]
        exact ih seen acc h1 h2

theorem searchGo_complete (q : String) (ms : List MeetingL) :
    ∀ (seen : List String) (acc : List SearchResultL),
      acc.length ≤ 4 →
      (∀ sid, seen.contains sid = true → sid ∈ acc.map (·.meetingId)) →
      ∀ m ∈ ms, matchesQ q m = true →
        m.id ∈ (searchGo q ms seen acc).map (·.meetingId) ∨ (searchGo q ms seen acc).length = 5 := by
  induction ms with
  | nil =>
    intro seen acc _ _ m hm
    simp at hm
  | cons m0 rest ih =>
    intro seen acc hlen hseen m hm hmatch
    rw [searchGo_cons]
    by_cases hc : seen.contains m0.id = true
    · rw [if_pos hc]
      rcases List.mem_cons.mp hm with rfl | hm'
      · left
        have hin := hseen m.id hc
        obtain ⟨sub, _, heq, _⟩ := searchGo_shape q rest seen acc
        rw [heq, List.map_append]
        exact List.mem_append_left _ hin
      · exact ih seen acc hlen hseen m hm' hmatch
    · rw [if_neg hc]
      by_cases h2 : matchesQ q m0 = true
      · rw [if_pos h2]
        by_cases h3 : 5 ≤ (acc ++ [toResult m0]).length
        · rw [if_pos h3]
          right
          simp only [List.length_append, List.length_singleton] at h3 ⊢
          omega
        · rw [if_neg h3]
          rcases List.mem_cons.mp hm with rfl | hm'
          · left
            obtain ⟨sub, _, heq, _⟩ := searchGo_shape q rest (m.id :: seen) (acc ++ [toResult m])
            rw [heq, List.map_append, List.map_append]
            apply List.mem_append_left
            apply List.mem_append_right
            simp [toResult]
          · refine ih (m0.id :: seen) (acc ++ [toResult m0]) ?_ ?_ m hm' hmatch
            · simp only [List.length_append, List.length_singleton] at h3 ⊢
              omega
            · intro sid hs
              have hs' : sid = m0.id ∨ seen.contains sid = true := by
                simpa [List.contains_cons] using hs
              rcases hs' with rfl | h
              · rw [List.map_append]
                apply List.mem_append_right
                simp [toResult]
              · have := hseen sid h
                rw [List.map_append]
                exact List.mem_append_left _ this
      · rw [if_neg h2]
        rcases List.mem_cons.mp hm with rfl | hm'
        · exact absurd hmatch h2
        · exact ih seen acc hlen hseen m hm' hmatch

/-- C10: searchMeetings returns [] on a blank query; otherwise at most five
results with pairwise-distinct meeting ids, formed in input order from
matching meetings (case-insensitive substring on title or present non-empty
summary); every matching meeting is either included or was cut by the
five-result cap. -/
theorem searchMeetings_spec (ms : List MeetingL) (q : String) :
    (trimL q = "" → searchMeetings ms q = []) ∧
    (searchMeetings ms q).length ≤ 5 ∧
    ((searchMeetings ms q).map (·.meetingId)).Nodup ∧
    (∃ sub : List MeetingL, sub.Sublist ms ∧ searchMeetings ms q = sub.map toResult ∧
      ∀ m ∈ sub, matchesQ q m = true) ∧
    (trimL q ≠ "" → ∀ m ∈ ms, matchesQ q m = true →
      m.id ∈ (searchMeetings ms q).map (·.meetingId) ∨ (searchMeetings ms q).length = 5) := by
  by_cases hq : (trimL q == "") = true
  · have hq' : trimL q = "" := by simpa using hq
    unfold searchMeetings
    rw [if_pos hq]
    exact ⟨fun _ => rfl, by simp, by simp, ⟨[], List.nil_sublist ms, by simp, by simp⟩,
      fun hne => absurd hq' hne⟩
  · unfold searchMeetings
    rw [if_neg hq]
    refine ⟨fun he => absurd (beq_iff_eq.mpr he) hq,
      searchGo_length q ms [] [] (by simp),
      searchGo_nodup q ms [] [] (by simp) (by simp), ?_,
      fun _ m hm hmm => searchGo_complete q ms [] [] (by simp) (by simp) m hm hmm⟩
    obtain ⟨sub, hsl, heq, hm⟩ := searchGo_shape q ms [] []
    exact ⟨sub, hsl, by simpa using heq, hm⟩

/-- Meetings list for the C10 witness. -/
def exMs : List MeetingL :=
  [⟨"a1", "Alpha Sync", "2020-01-01", none⟩,
   ⟨"b2", "Beta", "2020-01-02", some "alpha topics"⟩,
   ⟨"c3", "Gamma", "2020-01-03", none⟩]

theorem searchMeetings_spec_witness :
    searchMeetings exMs "   " = [] ∧
    (searchMeetings exMs "alpha").length ≤ 5 ∧
    ("a1" ∈ (searchMeetings exMs "alpha").map (·.meetingId) ∨
      (searchMeetings exMs "alpha").length = 5) := by
  have h0 := searchMeetings_spec exMs "   "
  have h1 := searchMeetings_spec exMs "alpha"
  refine ⟨h0.1 (by decide), h1.2.1, ?_⟩
  have hmem : (⟨"a1", "Alpha Sync", "2020-01-01", none⟩ : MeetingL) ∈ exMs := by
    simp [exMs]
  exact h1.2.2.2.2 (by decide) _ hmem (by decide)

/-! ## Claim C7: Chunker output invariants -/

/-- start_ts values of the emitted chunks, in emission order. -/
def outStarts (st : CState) : List Nat := st.out.map (·.start_ts)

/-- Chunker state invariant: indices are 0..n-1 in order, the next index is
n, start_ts is non-decreasing, and every buffered utterance is no older
than the last emitted chunk's start. -/
def CInv (st : CState) : Prop :=
  st.out.map (·.idx) = List.range st.out.length ∧
  st.nextIdx = st.out.length ∧
  List.Chain' (· ≤ ·) (outStarts st) ∧
  ∀ u ∈ st.buffer, ∀ t ∈ (outStarts st).getLast?, t ≤ u.ts

/-- Every buffered timestamp is at most `n`. -/
def bufLe (st : CState) (n : Nat) : Prop := ∀ u ∈ st.buffer, u.ts ≤ n

/-- The last emitted start_ts (if any) is at most `n`. -/
def lastLe (st : CState) (n : Nat) : Prop := ∀ t ∈ (outStarts st).getLast?, t ≤ n

theorem finalizeB_nil (st : CState) (hb : st.buffer = []) : finalizeB st = st := by
  unfold finalizeB
  rw [hb]

theorem finalizeB_cons (st : CState) (u : Utter) (us : List Utter) (hb : st.buffer = u :: us) :
    finalizeB st = { buffer := []
                     nextIdx := st.nextIdx + 1
                     out := st.out ++ [{ idx := st.nextIdx, start_ts := u.ts
                                         end_ts := ((u :: us).getLast?.getD u).ts
                                         text := cleanedText (u :: us) }] } := by
  unfold finalizeB
  rw [hb]

theorem finalizeB_inv (st : CState) (h : CInv st) : CInv (finalizeB st) := by
  obtain ⟨h1, h2, h3, h4⟩ := h
  cases hb : st.buffer with
  | nil =>
    rw [finalizeB_nil st hb]
    exact ⟨h1, h2, h3, h4⟩
  | cons u us =>
    rw [finalizeB_cons st u us hb]
    unfold CInv outStarts
    dsimp only
    refine ⟨?_, ?_, ?_, ?_⟩
    · rw [List.map_append, List.length_append, h1]
      simp [List.range_succ, h2]
    · rw [List.length_append, h2]
      rfl
    · rw [List.map_append, List.chain'_append]
      refine ⟨h3, by simp, ?_⟩
      intro x hx y hy
      have hy' : u.ts = y := by simpa using hy
      rw [← hy']
      exact h4 u (by rw [hb]; exact List.mem_cons_self u us) x hx
    · intro v hv
      simp at hv

theorem finalizeB_bufLe (st : CState) (n : Nat) (h : bufLe st n) : bufLe (finalizeB st) n := by
  cases hb : st.buffer with
  | nil =>
    rw [finalizeB_nil st hb]
    exact h
  | cons u us =>
    rw [finalizeB_cons st u us hb]
    intro v hv
    simp at hv

theorem finalizeB_lastLe (st : CState) (n : Nat) (hb : bufLe st n) (hl : lastLe st n) :
    lastLe (finalizeB st) n := by
  cases hbuf : st.buffer with
  | nil =>
    rw [finalizeB_nil st hbuf]
    exact hl
  | cons u us =>
    rw [finalizeB_cons st u us hbuf]
    unfold lastLe outStarts
    dsimp only
    intro t ht
    rw [List.map_append] at ht
    simp only [List.map_cons, List.map_nil, List.getLast?_concat] at ht
    have ht' : u.ts = t := by simpa using ht
    rw [← ht']
    exact hb u (by rw [hbuf]; exact List.mem_cons_self u us)

theorem pushCheck_inv (cfg : ChunkerConfig) (st : CState) (u : Utter)
    (h : CInv st) (hl : lastLe st u.ts) : CInv (pushCheck cfg st u) := by
  have h1 : CInv { st with buffer := st.buffer ++ [u] } := by
    obtain ⟨a, b, c, d⟩ := h
    refine ⟨a, b, c, ?_⟩
    intro v hv t ht
    rcases List.mem_append.mp hv with hv' | hv'
    · exact d v hv' t ht
    · have : v = u := by simpa using hv'
      rw [this]
      exact hl t ht
  unfold pushCheck
  by_cases hc : cfg.ceiling ≤ cfg.tokEst (cleanedText (st.buffer ++ [u]))
      ∨ cfg.maxSpan < spanOf (st.buffer ++ [u])
  · rw [if_pos hc]
    exact finalizeB_inv _ h1
  · rw [if_neg hc]
    exact h1

theorem pushCheck_bufLe (cfg : ChunkerConfig) (st : CState) (u : Utter) (n : Nat)
    (hb : bufLe st n) (hu : u.ts ≤ n) : bufLe (pushCheck cfg st u) n := by
  have h1 : bufLe { st with buffer := st.buffer ++ [u] } n := by
    intro v hv
    rcases List.mem_append.mp hv with hv' | hv'
    · exact hb v hv'
    · have : v = u := by simpa using hv'
      rw [this]
      exact hu
  unfold pushCheck
  by_cases hc : cfg.ceiling ≤ cfg.tokEst (cleanedText (st.buffer ++ [u]))
      ∨ cfg.maxSpan < spanOf (st.buffer ++ [u])
  · rw [if_pos hc]
    exact finalizeB_bufLe _ n h1
  · rw [if_neg hc]
    exact h1

theorem pushCheck_lastLe (cfg : ChunkerConfig) (st : CState) (u : Utter) (n : Nat)
    (hb : bufLe st n) (hu : u.ts ≤ n) (hl : lastLe st n) : lastLe (pushCheck cfg st u) n := by
  have h1 : bufLe { st with buffer := st.buffer ++ [u] } n := by
    intro v hv
    rcases List.mem_append.mp hv with hv' | hv'
    · exact hb v hv'
    · have : v = u := by simpa using hv'
      rw [this]
      exact hu
  unfold pushCheck
  by_cases hc : cfg.ceiling ≤ cfg.tokEst (cleanedText (st.buffer ++ [u]))
      ∨ cfg.maxSpan < spanOf (st.buffer ++ [u])
  · rw [if_pos hc]
    exact finalizeB_lastLe _ n h1 hl
  · rw [if_neg hc]
    exact hl

theorem bufLe_mono (st : CState) {n m : Nat} (h : bufLe st n) (hn : n ≤ m) : bufLe st m :=
  fun v hv => le_trans (h v hv) hn

theorem lastLe_mono (st : CState) {n m : Nat} (h : lastLe st n) (hn : n ≤ m) : lastLe st m :=
  fun t ht => le_trans (h t ht) hn

theorem appendU_inv (cfg : ChunkerConfig) (st : CState) (u : Utter)
    (h : CInv st) (hb : bufLe st u.ts) (hl : lastLe st u.ts) :
    CInv (appendU cfg st u) ∧ bufLe (appendU cfg st u) u.ts ∧ lastLe (appendU cfg st u) u.ts := by
  unfold appendU
  by_cases hsb : speakerBreak cfg st u = true
  · rw [if_pos hsb]
    have h' := finalizeB_inv st h
    have hb' := finalizeB_bufLe st u.ts hb
    have hl' := finalizeB_lastLe st u.ts hb hl
    exact ⟨pushCheck_inv cfg _ u h' hl',
      pushCheck_bufLe cfg _ u u.ts hb' le_rfl,
      pushCheck_lastLe cfg _ u u.ts hb' le_rfl hl'⟩
  · rw [if_neg hsb]
    exact ⟨pushCheck_inv cfg st u h hl,
      pushCheck_bufLe cfg st u u.ts hb le_rfl,
      pushCheck_lastLe cfg st u u.ts hb le_rfl hl⟩

theorem foldl_appendU_inv (cfg : ChunkerConfig) (us : List Utter) :
    ∀ st : CState, List.Pairwise (fun a b => a.ts ≤ b.ts) us →
      CInv st → (∀ v ∈ us, bufLe st v.ts) → (∀ v ∈ us, lastLe st v.ts) →
      CInv (us.foldl (appendU cfg) st) := by
  induction us with
  | nil =>
    intro st _ h _ _
    exact h
  | cons u rest ih =>
    intro st hp h hbAll hlAll
    rw [List.foldl_cons]
    rw [List.pairwise_cons] at hp
    obtain ⟨hu, hrest⟩ := hp
    obtain ⟨h', hb', hl'⟩ := appendU_inv cfg st u h
      (hbAll u (List.mem_cons_self u rest)) (hlAll u (List.mem_cons_self u rest))
    exact ih (appendU cfg st u) hrest h'
      (fun v hv => bufLe_mono _ hb' (hu v hv))
      (fun v hv => lastLe_mono _ hl' (hu v hv))

/-- C7: for every timestamp-ordered utterance sequence (utterances are
ordered by timestamp within a meeting), the chunks produced — both before
and after the final flush — carry contiguous chunk_index values starting at
0 and non-decreasing start_ts in chunk_index order. -/
theorem chunker_index_monotone_spec (cfg : ChunkerConfig) (us : List Utter)
    (hsorted : List.Pairwise (fun a b => a.ts ≤ b.ts) us) :
    ((us.foldl (appendU cfg) initC).out.map (·.idx)
        = List.range (us.foldl (appendU cfg) initC).out.length ∧
     List.Chain' (· ≤ ·) ((us.foldl (appendU cfg) initC).out.map (·.start_ts))) ∧
    ((runChunker cfg us).out.map (·.idx) = List.range (runChunker cfg us).out.length ∧
     List.Chain' (· ≤ ·) ((runChunker cfg us).out.map (·.start_ts))) := by
  have hinit : CInv initC := ⟨rfl, rfl, List.chain'_nil, by intro u hu; simp [initC] at hu⟩
  have hmid := foldl_appendU_inv cfg us initC hsorted hinit
    (fun v _ => by intro w hw; simp [initC] at hw)
    (fun v _ => by intro t ht; simp [initC, outStarts] at ht)
  have hfin := finalizeB_inv _ hmid
  exact ⟨⟨hmid.1, hmid.2.2.1⟩, ⟨hfin.1, hfin.2.2.1⟩⟩

/-- Chunker configuration for the C7 witness: length-based token estimate,
small ceiling, wide span, speaker break after one utterance. -/
def exCfg : ChunkerConfig :=
  { tokEst := fun s => s.length, ceiling := 24, maxSpan := 100000, minBuf := 1 }

def exUtts : List Utter :=
  [⟨"user", "hello there", 0⟩, ⟨"them", "hi", 10⟩, ⟨"them", "more words here", 20⟩]

theorem chunker_index_monotone_spec_witness :
    List.Pairwise (fun a b : Utter => a.ts ≤ b.ts) exUtts ∧
    (runChunker exCfg exUtts).out.map (·.idx) = List.range (runChunker exCfg exUtts).out.length ∧
    List.Chain' (· ≤ ·) ((runChunker exCfg exUtts).out.map (·.start_ts)) := by
  have h := chunker_index_monotone_spec exCfg exUtts (by decide)
  exact ⟨by decide, h.2.1, h.2.2⟩
